import Mathlib

/-!
Verification of the finm_tracker transaction-to-position reconciliation
engine (`PortfolioService.add_transaction`, `portfolio/models.py`).

Symbols and other Django `CharField` values are modelled as lists of
characters; monetary `Decimal` values as rationals (Python `Decimal`
arithmetic is exact); timestamps as integers.  The single portfolio a
service call operates on is modelled as a `PState` holding its asset rows
and its transaction rows.  The external market-data provider
(`ExternalAPIService.fetch_asset_info`) is a parameter returning
`Option AssetInfo`; `none` models its `ValueError` / lookup failure.

`addTransactionRaw` is the fine-grained translation of the body of
`add_transaction`: every `save()` / `create()` applies to the state
immediately, and an error carries the partial state reached at the point
the exception is raised.  `runRecord` wraps it in the semantics of
`with db_transaction.atomic():` — on error the partial state is discarded
and the stored state is the state before the call.
-/

namespace Finm

abbrev Str := List Char

/-- Python `str.endswith(suffix)`. -/
def endsWith (s suffix : Str) : Bool := decide (suffix <:+ s)

/-- The dict returned by `ExternalAPIService.fetch_asset_info`. -/
structure AssetInfo where
  name : Str
  last_price : ℚ
  sector : Str
  deriving DecidableEq, Repr

/-- A row of the `Asset` model (fields of one portfolio's asset). -/
structure Asset where
  symbol : Str
  name : Str
  asset_type : Str
  position : ℚ
  last_price : Option ℚ
  sector : Str
  deriving DecidableEq, Repr

/-- A row of the `Transaction` model (fields of one portfolio's transaction). -/
structure Transaction where
  asset_symbol : Str
  transaction_type : Str
  quantity : ℚ
  price : ℚ
  timestamp : ℤ
  deriving DecidableEq, Repr

/-- The stored rows belonging to one portfolio. -/
structure PState where
  assets : List Asset
  transactions : List Transaction
  deriving DecidableEq, Repr

/-- The error taxonomy of the ledger.  `duplicateTimestamp` models the
database `IntegrityError` raised by the unique `(portfolio, timestamp)`
constraint when the `Transaction` row is inserted. -/
inductive Err where
  | invalidQuantity
  | invalidPrice
  | futureTimestamp
  | invalidAssetClass
  | invalidTransactionKind
  | noSuchHolding
  | insufficientHolding
  | assetInfoUnavailable
  | duplicateTimestamp
  deriving DecidableEq, Repr

deriving instance DecidableEq for Except

/-- The symbol-standardization block of `add_transaction`
(lines 51-61 of portfolio_services.py). -/
def normalizeSymbol (asset_symbol : Str) (asset_type : Str) : Except Err Str :=
  if asset_type = "stock_us".data then
    .ok asset_symbol
  else if asset_type = "stock_au".data then
    if endsWith asset_symbol ".AX".data then .ok asset_symbol
    else .ok (asset_symbol ++ ".AX".data)
  else if asset_type = "crypto".data then
    if endsWith asset_symbol "-USD".data then .ok asset_symbol
    else .ok (asset_symbol ++ "-USD".data)
  else
    .error .invalidAssetClass

/-- `Asset.objects.filter(portfolio=portfolio, symbol=s).first()`. -/
def findAsset (assets : List Asset) (sym : Str) : Option Asset :=
  assets.find? (fun a => a.symbol = sym)

/-- `asset.save()` on a fetched row: the row with this symbol is replaced. -/
def updateAsset (assets : List Asset) (sym : Str) (a : Asset) : List Asset :=
  assets.map (fun b => if b.symbol = sym then a else b)

/-- Whether the portfolio already stores a transaction at this timestamp
(the unique `(portfolio, timestamp)` constraint of the `Transaction` model). -/
def hasTimestamp (txs : List Transaction) (ts : ℤ) : Bool :=
  txs.any (fun t => t.timestamp = ts)

/-- `Transaction.objects.create(...)` (lines 102-109): inserts the row, or
raises `IntegrityError` on a duplicate timestamp.  On error the partial
state (with the asset mutation already applied) is carried. -/
def createTransaction (s : PState) (sym kind : Str) (q p : ℚ) (ts : ℤ)
    (asset : Asset) : Except (Err × PState) (PState × Transaction × Asset) :=
  if hasTimestamp s.transactions ts then
    .error (.duplicateTimestamp, s)
  else
    let tx : Transaction := ⟨sym, kind, q, p, ts⟩
    .ok ({ s with transactions := s.transactions ++ [tx] }, tx, asset)

/-- Fine-grained translation of `PortfolioService.add_transaction`
(portfolio_services.py lines 39-111).  `fetch` is the market-data
provider; `now` is `timezone.now()` at call time.  An error carries the
state reached at the raise site (a write may already have applied). -/
def addTransactionRaw (fetch : Str → Str → Option AssetInfo) (now : ℤ)
    (s : PState) (asset_symbol asset_type transaction_type : Str)
    (quantity price : ℚ) (timestamp : ℤ) :
    Except (Err × PState) (PState × Transaction × Asset) :=
  if quantity ≤ 0 then .error (.invalidQuantity, s)
  else if price ≤ 0 then .error (.invalidPrice, s)
  else if now < timestamp then .error (.futureTimestamp, s)
  else match normalizeSymbol asset_symbol asset_type with
  | .error e => .error (e, s)
  | .ok sym =>
    match findAsset s.assets sym with
    | some asset =>
      if transaction_type = "sell".data then
        if asset.position < quantity then .error (.insufficientHolding, s)
        else
          let a := { asset with position := asset.position - quantity }
          let s₁ := { s with assets := updateAsset s.assets sym a }
          createTransaction s₁ sym transaction_type quantity price timestamp a
      else if transaction_type = "buy".data then
        let a := { asset with position := asset.position + quantity }
        let s₁ := { s with assets := updateAsset s.assets sym a }
        createTransaction s₁ sym transaction_type quantity price timestamp a
      else .error (.invalidTransactionKind, s)
    | none =>
      if transaction_type = "sell".data then .error (.noSuchHolding, s)
      else if transaction_type = "buy".data then
        match fetch sym asset_type with
        | none => .error (.assetInfoUnavailable, s)
        | some info =>
          let a : Asset :=
            ⟨sym, info.name, asset_type, quantity, some info.last_price, info.sector⟩
          let s₁ := { s with assets := s.assets ++ [a] }
          createTransaction s₁ sym transaction_type quantity price timestamp a
      else .error (.invalidTransactionKind, s)

/-- The public operation: the raw body wrapped in
`with db_transaction.atomic():` — an error discards the partial state. -/
def addTransaction (fetch : Str → Str → Option AssetInfo) (now : ℤ)
    (s : PState) (asset_symbol asset_type transaction_type : Str)
    (quantity price : ℚ) (timestamp : ℤ) :
    Except Err (PState × Transaction × Asset) :=
  match addTransactionRaw fetch now s asset_symbol asset_type transaction_type
      quantity price timestamp with
  | .ok r => .ok r
  | .error (e, _) => .error e

/-- The stored state after a call, together with the error if it failed:
on success the new state is committed, on failure the transaction rolls
back to the pre-call state. -/
def runRecord (fetch : Str → Str → Option AssetInfo) (now : ℤ)
    (s : PState) (asset_symbol asset_type transaction_type : Str)
    (quantity price : ℚ) (timestamp : ℤ) : PState × Option Err :=
  match addTransactionRaw fetch now s asset_symbol asset_type transaction_type
      quantity price timestamp with
  | .ok (s₁, _, _) => (s₁, none)
  | .error (e, _) => (s, some e)

/-! ## Valuation engine (portfolio/models.py) -/

/-- `transaction.transaction_value`: `quantity * price`. -/
def transaction_value (t : Transaction) : ℚ := t.quantity * t.price

/-- `portfolio.transactions.filter(asset_symbol=sym, transaction_type=kind)`. -/
def txsFor (txs : List Transaction) (sym kind : Str) : List Transaction :=
  txs.filter (fun t => t.asset_symbol = sym ∧ t.transaction_type = kind)

/-- `Asset.total_cost` (models.py lines 97-117): sum of buy transaction
values minus sum of sell transaction values over this portfolio's
transactions with this asset's symbol. -/
def total_cost (txs : List Transaction) (a : Asset) : ℚ :=
  ((txsFor txs a.symbol "buy".data).map transaction_value).sum
    - ((txsFor txs a.symbol "sell".data).map transaction_value).sum

/-- `Asset.market_value` (models.py lines 87-95). -/
def market_value (a : Asset) : ℚ :=
  match a.last_price with
  | some p => a.position * p
  | none => 0

/-- `Asset.average_cost` (models.py lines 119-125). -/
def average_cost (txs : List Transaction) (a : Asset) : ℚ :=
  if 0 < a.position then total_cost txs a / a.position else 0

/-- `Asset.profit_loss` (models.py lines 127-133). -/
def profit_loss (txs : List Transaction) (a : Asset) : ℚ :=
  market_value a - total_cost txs a

/-- `Portfolio.assets_value` (models.py lines 21-27). -/
def assets_value (s : PState) : ℚ := (s.assets.map market_value).sum

/-- `Portfolio.assets_cost` (models.py lines 29-35). -/
def assets_cost (s : PState) : ℚ :=
  (s.assets.map (total_cost s.transactions)).sum

/-! ## Sequences of ledger calls -/

/-- The arguments of one `add_transaction` call. -/
structure Call where
  symbol : Str
  cls : Str
  kind : Str
  quantity : ℚ
  price : ℚ
  timestamp : ℤ
  deriving DecidableEq, Repr

/-- The stored state after one call: committed on success, rolled back on
failure. -/
def runCall (fetch : Str → Str → Option AssetInfo) (now : ℤ)
    (s : PState) (c : Call) : PState :=
  (runRecord fetch now s c.symbol c.cls c.kind c.quantity c.price c.timestamp).1

/-- The stored state after a sequence of calls. -/
def applyCalls (fetch : Str → Str → Option AssetInfo) (now : ℤ)
    (calls : List Call) (s : PState) : PState :=
  calls.foldl (runCall fetch now) s

/-- A portfolio with no assets and no transactions yet. -/
def initState : PState := ⟨[], []⟩

/-- Sum of quantities of buy transactions with this symbol. -/
def buyQty (txs : List Transaction) (sym : Str) : ℚ :=
  ((txsFor txs sym "buy".data).map Transaction.quantity).sum

/-- Sum of quantities of sell transactions with this symbol. -/
def sellQty (txs : List Transaction) (sym : Str) : ℚ :=
  ((txsFor txs sym "sell".data).map Transaction.quantity).sum

/-- The ledger invariant: every asset's position is the net of the stored
buy/sell quantities for its symbol and is non-negative; every stored
transaction's symbol has an asset row; asset symbols are unique within
the portfolio (the `(portfolio, symbol)` unique constraint). -/
def Inv (s : PState) : Prop :=
  (∀ a ∈ s.assets,
      a.position = buyQty s.transactions a.symbol - sellQty s.transactions a.symbol
        ∧ 0 ≤ a.position)
    ∧ (∀ t ∈ s.transactions, ∃ a ∈ s.assets, a.symbol = t.asset_symbol)
    ∧ s.assets.Pairwise (fun a b => a.symbol ≠ b.symbol)

/-! ## Concrete fixtures used to instantiate the theorems -/

/-- A provider that resolves every symbol with a fixed quote of 150. -/
def fetchW : Str → Str → Option AssetInfo :=
  fun _ _ => some ⟨"Test Asset".data, 150, "Tech".data⟩

/-- A provider that resolves no symbol (external lookup failure). -/
def fetchNone : Str → Str → Option AssetInfo := fun _ _ => none

/-- Buy 10 AAPL at 100, then sell 4 AAPL at 120. -/
def callsW : List Call :=
  [⟨"AAPL".data, "stock_us".data, "buy".data, 10, 100, 1⟩,
   ⟨"AAPL".data, "stock_us".data, "sell".data, 4, 120, 2⟩]

/-- The stored state after running `callsW` from an empty portfolio. -/
def sW : PState := applyCalls fetchW 100 callsW initState

/-- The AAPL asset row as it stands in `sW`. -/
def assetW : Asset :=
  ⟨"AAPL".data, "Test Asset".data, "stock_us".data, 6, some 150, "Tech".data⟩

/-- The round-trip history: buy 10 MSFT at 100, then sell 10 MSFT at 150
on a previously-unheld symbol. -/
def callsRT : List Call :=
  [⟨"MSFT".data, "stock_us".data, "buy".data, 10, 100, 11⟩,
   ⟨"MSFT".data, "stock_us".data, "sell".data, 10, 150, 12⟩]

/-- The stored state after the round trip. -/
def sRT : PState := applyCalls fetchW 100 callsRT initState

/-- The MSFT asset row as it stands in `sRT`. -/
def assetRT : Asset :=
  ⟨"MSFT".data, "Test Asset".data, "stock_us".data, 0, some 150, "Tech".data⟩

/-! ## Helper lemmas -/

theorem findAsset_mem {assets : List Asset} {sym : Str} {a : Asset}
    (h : findAsset assets sym = some a) : a ∈ assets ∧ a.symbol = sym := by
  refine ⟨List.mem_of_find?_eq_some h, ?_⟩
  have := List.find?_some h
  exact of_decide_eq_true this

theorem findAsset_none_iff {assets : List Asset} {sym : Str}
    (h : findAsset assets sym = none) : ∀ a ∈ assets, a.symbol ≠ sym := by
  intro a ha
  have := List.find?_eq_none.mp h a ha
  simpa using this

theorem mem_updateAsset {assets : List Asset} {sym : Str} {a b : Asset}
    (hb : b ∈ updateAsset assets sym a) :
    b = a ∨ (b ∈ assets ∧ b.symbol ≠ sym) := by
  rcases List.mem_map.mp hb with ⟨c, hc, hcb⟩
  by_cases hcs : c.symbol = sym
  · left
    simp [hcs] at hcb
    exact hcb.symm
  · right
    simp [hcs] at hcb
    exact hcb ▸ ⟨hc, hcs⟩

theorem updateAsset_symbol_map {sym : Str} {a : Asset}
    (ha : a.symbol = sym) (b : Asset) :
    ((if b.symbol = sym then a else b)).symbol = b.symbol := by
  by_cases hb : b.symbol = sym <;> simp [hb, ha]

theorem updateAsset_pairwise {assets : List Asset} {sym : Str} {a : Asset}
    (ha : a.symbol = sym)
    (h : assets.Pairwise (fun x y => x.symbol ≠ y.symbol)) :
    (updateAsset assets sym a).Pairwise (fun x y => x.symbol ≠ y.symbol) := by
  refine List.Pairwise.map _ ?_ h
  intro x y hxy
  rw [updateAsset_symbol_map ha x, updateAsset_symbol_map ha y]
  exact hxy

theorem updated_mem_updateAsset {assets : List Asset} {sym : Str} {a c : Asset}
    (hc : c ∈ assets) (hcs : c.symbol = sym) :
    a ∈ updateAsset assets sym a := by
  refine List.mem_map.mpr ⟨c, hc, ?_⟩
  simp [hcs]

theorem symbol_surv_updateAsset {assets : List Asset} {sym : Str} {a b : Asset}
    (ha : a.symbol = sym) (hb : b ∈ assets) :
    ∃ c ∈ updateAsset assets sym a, c.symbol = b.symbol := by
  refine ⟨if b.symbol = sym then a else b, List.mem_map.mpr ⟨b, hb, rfl⟩, ?_⟩
  exact updateAsset_symbol_map ha b

theorem untouched_mem_updateAsset {assets : List Asset} {sym : Str} {a b : Asset}
    (hb : b ∈ assets) (hbs : b.symbol ≠ sym) :
    b ∈ updateAsset assets sym a := by
  refine List.mem_map.mpr ⟨b, hb, ?_⟩
  simp [hbs]

theorem findAsset_updateAsset {assets : List Asset} {sym : Str} {a asset : Asset}
    (hfind : findAsset assets sym = some asset) (ha : a.symbol = sym) :
    findAsset (updateAsset assets sym a) sym = some a := by
  induction assets with
  | nil => simp [findAsset] at hfind
  | cons b l ih =>
    by_cases hb : b.symbol = sym
    · simp [findAsset, updateAsset, List.find?, hb, ha]
    · simp only [findAsset, updateAsset, List.map_cons, if_neg hb] at *
      rw [List.find?_cons_of_neg _ (by simpa using hb)] at hfind ⊢
      exact ih hfind

theorem txsFor_append (txs : List Transaction) (t : Transaction) (sym kind : Str) :
    txsFor (txs ++ [t]) sym kind
      = txsFor txs sym kind
          ++ (if t.asset_symbol = sym ∧ t.transaction_type = kind then [t] else []) := by
  by_cases h : t.asset_symbol = sym ∧ t.transaction_type = kind <;>
    simp [txsFor, List.filter_append, h]

theorem buyQty_append (txs : List Transaction) (t : Transaction) (sym : Str) :
    buyQty (txs ++ [t]) sym
      = buyQty txs sym
          + (if t.asset_symbol = sym ∧ t.transaction_type = "buy".data
              then t.quantity else 0) := by
  by_cases h : t.asset_symbol = sym ∧ t.transaction_type = "buy".data <;>
    simp [buyQty, txsFor_append, h]

theorem sellQty_append (txs : List Transaction) (t : Transaction) (sym : Str) :
    sellQty (txs ++ [t]) sym
      = sellQty txs sym
          + (if t.asset_symbol = sym ∧ t.transaction_type = "sell".data
              then t.quantity else 0) := by
  by_cases h : t.asset_symbol = sym ∧ t.transaction_type = "sell".data <;>
    simp [sellQty, txsFor_append, h]

theorem ne_buy_sell : "sell".data ≠ "buy".data := by decide

theorem buyQty_of_no_symbol {txs : List Transaction} {sym : Str}
    (h : ∀ t ∈ txs, t.asset_symbol ≠ sym) : buyQty txs sym = 0 := by
  have : txsFor txs sym "buy".data = [] := by
    refine List.filter_eq_nil_iff.mpr ?_
    intro t ht
    simp [h t ht]
  simp [buyQty, this]

theorem sellQty_of_no_symbol {txs : List Transaction} {sym : Str}
    (h : ∀ t ∈ txs, t.asset_symbol ≠ sym) : sellQty txs sym = 0 := by
  have : txsFor txs sym "sell".data = [] := by
    refine List.filter_eq_nil_iff.mpr ?_
    intro t ht
    simp [h t ht]
  simp [sellQty, this]

/-- Invariant preservation along the existing-asset sell path. -/
theorem inv_sell_existing {s : PState} {sym : Str} {asset : Asset} {q p : ℚ} {ts : ℤ}
    (hInv : Inv s) (hfind : findAsset s.assets sym = some asset)
    (hq : q ≤ asset.position) :
    Inv ⟨updateAsset s.assets sym { asset with position := asset.position - q },
         s.transactions ++ [⟨sym, "sell".data, q, p, ts⟩]⟩ := by
  obtain ⟨h1, h2, h3⟩ := hInv
  obtain ⟨hmem, hsym⟩ := findAsset_mem hfind
  subst hsym
  have ha : ({ asset with position := asset.position - q } : Asset).symbol
      = asset.symbol := rfl
  refine ⟨?_, ?_, ?_⟩
  · intro b hb
    rcases mem_updateAsset hb with rfl | ⟨hbmem, hbs⟩
    · have hp := (h1 asset hmem).1
      constructor
      · dsimp only
        rw [buyQty_append, sellQty_append,
            if_neg (fun h => ne_buy_sell h.2), if_pos ⟨rfl, rfl⟩]
        linarith [hp]
      · exact sub_nonneg.mpr hq
    · have hp := h1 b hbmem
      constructor
      · dsimp only
        rw [buyQty_append, sellQty_append,
            if_neg (fun h => hbs h.1.symm), if_neg (fun h => hbs h.1.symm)]
        simpa using hp.1
      · exact hp.2
  · intro t ht
    rcases List.mem_append.mp ht with htold | htnew
    · obtain ⟨c, hc, hcs⟩ := h2 t htold
      obtain ⟨c', hc', hcs'⟩ := symbol_surv_updateAsset ha hc
      exact ⟨c', hc', hcs'.trans hcs⟩
    · have : t = ⟨asset.symbol, "sell".data, q, p, ts⟩ := by simpa using htnew
      subst this
      exact ⟨_, updated_mem_updateAsset hmem rfl, ha⟩
  · exact updateAsset_pairwise ha h3

/-- Invariant preservation along the existing-asset buy path. -/
theorem inv_buy_existing {s : PState} {sym : Str} {asset : Asset} {q p : ℚ} {ts : ℤ}
    (hInv : Inv s) (hfind : findAsset s.assets sym = some asset)
    (hq : 0 ≤ q) :
    Inv ⟨updateAsset s.assets sym { asset with position := asset.position + q },
         s.transactions ++ [⟨sym, "buy".data, q, p, ts⟩]⟩ := by
  obtain ⟨h1, h2, h3⟩ := hInv
  obtain ⟨hmem, hsym⟩ := findAsset_mem hfind
  subst hsym
  have ha : ({ asset with position := asset.position + q } : Asset).symbol
      = asset.symbol := rfl
  refine ⟨?_, ?_, ?_⟩
  · intro b hb
    rcases mem_updateAsset hb with rfl | ⟨hbmem, hbs⟩
    · have hp := (h1 asset hmem).1
      constructor
      · dsimp only
        rw [buyQty_append, sellQty_append,
            if_pos ⟨rfl, rfl⟩, if_neg (fun h => ne_buy_sell h.2.symm)]
        linarith [hp]
      · exact add_nonneg (h1 asset hmem).2 hq
    · have hp := h1 b hbmem
      constructor
      · dsimp only
        rw [buyQty_append, sellQty_append,
            if_neg (fun h => hbs h.1.symm), if_neg (fun h => hbs h.1.symm)]
        simpa using hp.1
      · exact hp.2
  · intro t ht
    rcases List.mem_append.mp ht with htold | htnew
    · obtain ⟨c, hc, hcs⟩ := h2 t htold
      obtain ⟨c', hc', hcs'⟩ := symbol_surv_updateAsset ha hc
      exact ⟨c', hc', hcs'.trans hcs⟩
    · have : t = ⟨asset.symbol, "buy".data, q, p, ts⟩ := by simpa using htnew
      subst this
      exact ⟨_, updated_mem_updateAsset hmem rfl, ha⟩
  · exact updateAsset_pairwise ha h3

/-- Invariant preservation along the new-asset buy path. -/
theorem inv_buy_new {s : PState} {sym : Str} {info : AssetInfo} {cls : Str}
    {q p : ℚ} {ts : ℤ}
    (hInv : Inv s) (hfind : findAsset s.assets sym = none) (hq : 0 ≤ q) :
    Inv ⟨s.assets ++ [⟨sym, info.name, cls, q, some info.last_price, info.sector⟩],
         s.transactions ++ [⟨sym, "buy".data, q, p, ts⟩]⟩ := by
  obtain ⟨h1, h2, h3⟩ := hInv
  have hnone := findAsset_none_iff hfind
  have hnotx : ∀ t ∈ s.transactions, t.asset_symbol ≠ sym := by
    intro t ht hts
    obtain ⟨c, hc, hcs⟩ := h2 t ht
    exact hnone c hc (hcs.trans hts)
  refine ⟨?_, ?_, ?_⟩
  · intro b hb
    rcases List.mem_append.mp hb with hbmem | hbnew
    · have hp := h1 b hbmem
      constructor
      · dsimp only
        rw [buyQty_append, sellQty_append,
            if_neg (fun h => hnone b hbmem h.1.symm),
            if_neg (fun h => hnone b hbmem h.1.symm)]
        simpa using hp.1
      · exact hp.2
    · have : b = ⟨sym, info.name, cls, q, some info.last_price, info.sector⟩ := by
        simpa using hbnew
      subst this
      constructor
      · dsimp only
        rw [buyQty_append, sellQty_append,
            if_pos ⟨rfl, rfl⟩, if_neg (fun h => ne_buy_sell h.2.symm)]
        rw [buyQty_of_no_symbol hnotx, sellQty_of_no_symbol hnotx]
        ring
      · exact hq
  · intro t ht
    rcases List.mem_append.mp ht with htold | htnew
    · obtain ⟨c, hc, hcs⟩ := h2 t htold
      exact ⟨c, List.mem_append.mpr (Or.inl hc), hcs⟩
    · have : t = ⟨sym, "buy".data, q, p, ts⟩ := by simpa using htnew
      subst this
      exact ⟨⟨sym, info.name, cls, q, some info.last_price, info.sector⟩,
        List.mem_append.mpr (Or.inr (by simp)), rfl⟩
  · rw [List.pairwise_append]
    refine ⟨h3, by simp, ?_⟩
    intro a hamem b hbmem
    have : b = ⟨sym, info.name, cls, q, some info.last_price, info.sector⟩ := by
      simpa using hbmem
    subst this
    exact hnone a hamem

/-- Characterization of a successful `add_transaction` call: the
validations passed, the timestamp was fresh, the appended transaction
carries the normalized symbol, and the asset change is one of the three
success paths (sell on an existing asset, buy on an existing asset, buy
creating a new asset from the provider's info). -/
theorem raw_ok_cases {fetch : Str → Str → Option AssetInfo} {now : ℤ} {s : PState}
    {sym cls kind : Str} {q p : ℚ} {ts : ℤ} {s₁ : PState} {tx : Transaction} {a : Asset}
    (h : addTransactionRaw fetch now s sym cls kind q p ts = .ok (s₁, tx, a)) :
    ∃ nsym, normalizeSymbol sym cls = .ok nsym
      ∧ 0 < q ∧ 0 < p ∧ ts ≤ now
      ∧ hasTimestamp s.transactions ts = false
      ∧ tx = ⟨nsym, kind, q, p, ts⟩
      ∧ s₁.transactions = s.transactions ++ [tx]
      ∧ ((∃ asset, findAsset s.assets nsym = some asset ∧ kind = "sell".data
            ∧ q ≤ asset.position ∧ a = { asset with position := asset.position - q }
            ∧ s₁.assets = updateAsset s.assets nsym a)
        ∨ (∃ asset, findAsset s.assets nsym = some asset ∧ kind = "buy".data
            ∧ a = { asset with position := asset.position + q }
            ∧ s₁.assets = updateAsset s.assets nsym a)
        ∨ (∃ info, findAsset s.assets nsym = none ∧ kind = "buy".data
            ∧ fetch nsym cls = some info
            ∧ a = ⟨nsym, info.name, cls, q, some info.last_price, info.sector⟩
            ∧ s₁.assets = s.assets ++ [a])) := by
  simp only [addTransactionRaw, createTransaction] at h
  by_cases hq : q ≤ 0
  · rw [if_pos hq] at h; cases h
  rw [if_neg hq] at h
  by_cases hp : p ≤ 0
  · rw [if_pos hp] at h; cases h
  rw [if_neg hp] at h
  by_cases hts : now < ts
  · rw [if_pos hts] at h; cases h
  rw [if_neg hts] at h
  cases hnorm : normalizeSymbol sym cls with
  | error e => rw [hnorm] at h; cases h
  | ok nsym =>
  rw [hnorm] at h
  dsimp only at h
  refine ⟨nsym, rfl, lt_of_not_le hq, lt_of_not_le hp, le_of_not_lt hts, ?_⟩
  cases hfind : findAsset s.assets nsym with
  | some asset =>
    rw [hfind] at h
    dsimp only at h
    by_cases hkind : kind = "sell".data
    · rw [if_pos hkind] at h
      by_cases hpos : asset.position < q
      · rw [if_pos hpos] at h; cases h
      rw [if_neg hpos] at h
      cases hdup : hasTimestamp s.transactions ts with
      | true => simp [hdup] at h
      | false =>
        simp only [hdup, Bool.false_eq_true, if_false, Except.ok.injEq,
          Prod.mk.injEq] at h
        obtain ⟨hs₁, htx, ha⟩ := h
        subst hs₁; subst htx; subst ha
        exact ⟨rfl, rfl, rfl, Or.inl ⟨asset, rfl, hkind, le_of_not_lt hpos, rfl, rfl⟩⟩
    · rw [if_neg hkind] at h
      by_cases hbuy : kind = "buy".data
      · rw [if_pos hbuy] at h
        cases hdup : hasTimestamp s.transactions ts with
        | true => simp [hdup] at h
        | false =>
          simp only [hdup, Bool.false_eq_true, if_false, Except.ok.injEq,
            Prod.mk.injEq] at h
          obtain ⟨hs₁, htx, ha⟩ := h
          subst hs₁; subst htx; subst ha
          exact ⟨rfl, rfl, rfl, Or.inr (Or.inl ⟨asset, rfl, hbuy, rfl, rfl⟩)⟩
      · rw [if_neg hbuy] at h; cases h
  | none =>
    rw [hfind] at h
    dsimp only at h
    by_cases hkind : kind = "sell".data
    · rw [if_pos hkind] at h; cases h
    rw [if_neg hkind] at h
    by_cases hbuy : kind = "buy".data
    · rw [if_pos hbuy] at h
      cases hfetch : fetch nsym cls with
      | none => rw [hfetch] at h; dsimp only at h; cases h
      | some info =>
        rw [hfetch] at h
        dsimp only at h
        cases hdup : hasTimestamp s.transactions ts with
        | true => simp [hdup] at h
        | false =>
          simp only [hdup, Bool.false_eq_true, if_false, Except.ok.injEq,
            Prod.mk.injEq] at h
          obtain ⟨hs₁, htx, ha⟩ := h
          subst hs₁; subst htx; subst ha
          exact ⟨rfl, rfl, rfl, Or.inr (Or.inr ⟨info, rfl, hbuy, rfl, rfl, rfl⟩)⟩
    · rw [if_neg hbuy] at h; cases h

/-- One ledger call preserves the invariant (on failure the state is the
rolled-back original; on success one of the three paths applies). -/
theorem inv_runCall (fetch : Str → Str → Option AssetInfo) (now : ℤ)
    {s : PState} (c : Call) (h : Inv s) : Inv (runCall fetch now s c) := by
  obtain ⟨csym, ccls, ckind, cq, cp, cts⟩ := c
  unfold runCall runRecord
  dsimp only
  cases hres : addTransactionRaw fetch now s csym ccls ckind cq cp cts with
  | error ep => exact h
  | ok r =>
    obtain ⟨s₁, tx, a⟩ := r
    dsimp only
    obtain ⟨nsym, hnorm, hq, hp, hts, hdup, htx, htxs, hcase⟩ := raw_ok_cases hres
    subst htx
    rcases hcase with ⟨asset, hfind, hkind, hqle, ha, hassets⟩
      | ⟨asset, hfind, hkind, ha, hassets⟩
      | ⟨info, hfind, hkind, hfetch, ha, hassets⟩
    · subst hkind; subst ha
      have hs : s₁ = ⟨updateAsset s.assets nsym
            { asset with position := asset.position - cq },
          s.transactions ++ [⟨nsym, "sell".data, cq, cp, cts⟩]⟩ := by
        cases s₁
        simp only [PState.mk.injEq]
        exact ⟨hassets, htxs⟩
      rw [hs]
      exact inv_sell_existing h hfind hqle
    · subst hkind; subst ha
      have hs : s₁ = ⟨updateAsset s.assets nsym
            { asset with position := asset.position + cq },
          s.transactions ++ [⟨nsym, "buy".data, cq, cp, cts⟩]⟩ := by
        cases s₁
        simp only [PState.mk.injEq]
        exact ⟨hassets, htxs⟩
      rw [hs]
      exact inv_buy_existing h hfind (le_of_lt hq)
    · subst hkind; subst ha
      have hs : s₁ = ⟨s.assets
            ++ [⟨nsym, info.name, ccls, cq, some info.last_price, info.sector⟩],
          s.transactions ++ [⟨nsym, "buy".data, cq, cp, cts⟩]⟩ := by
        cases s₁
        simp only [PState.mk.injEq]
        exact ⟨hassets, htxs⟩
      rw [hs]
      exact inv_buy_new h hfind (le_of_lt hq)

/-- A whole sequence of calls preserves the invariant. -/
theorem inv_applyCalls (fetch : Str → Str → Option AssetInfo) (now : ℤ)
    (calls : List Call) {s : PState} (h : Inv s) :
    Inv (applyCalls fetch now calls s) := by
  induction calls generalizing s with
  | nil => exact h
  | cons c cs ih =>
    rw [applyCalls, List.foldl_cons]
    exact ih (inv_runCall fetch now c h)

/-- The empty portfolio satisfies the invariant. -/
theorem inv_initState : Inv initState := by
  refine ⟨?_, ?_, ?_⟩ <;> simp [initState, Inv]

/-- C1: after any sequence of `record_transaction` calls (failed calls roll
back and leave the state unchanged), every asset's position equals the sum
of the quantities of stored buy transactions for its symbol minus the sum
of the quantities of stored sell transactions for that symbol, and is
non-negative; since this holds for every call sequence, it holds after
every operation. -/
theorem position_is_net_and_nonneg (fetch : Str → Str → Option AssetInfo)
    (now : ℤ) (calls : List Call) :
    ∀ a ∈ (applyCalls fetch now calls initState).assets,
      a.position
          = buyQty (applyCalls fetch now calls initState).transactions a.symbol
            - sellQty (applyCalls fetch now calls initState).transactions a.symbol
        ∧ 0 ≤ a.position :=
  (inv_applyCalls fetch now calls inv_initState).1

/-- Witness for C1 at a concrete two-call history. -/
theorem position_is_net_and_nonneg_witness :
    assetW ∈ (applyCalls fetchW 100 callsW initState).assets
      ∧ (assetW.position
            = buyQty (applyCalls fetchW 100 callsW initState).transactions assetW.symbol
              - sellQty (applyCalls fetchW 100 callsW initState).transactions assetW.symbol
          ∧ 0 ≤ assetW.position) :=
  ⟨of_decide_eq_true (by with_unfolding_all rfl),
   position_is_net_and_nonneg fetchW 100 callsW assetW
     (of_decide_eq_true (by with_unfolding_all rfl))⟩

/-- Appending a suffix makes `endsWith` true (Python
`(s + suf).endswith(suf)`). -/
theorem endsWith_append (s suffix : Str) : endsWith (s ++ suffix) suffix = true :=
  decide_eq_true (List.suffix_append s suffix)

/-- Normalization is idempotent: the output of a successful normalization
normalizes to itself under the same asset class. -/
theorem normalizeSymbol_idem {sym cls nsym : Str}
    (h : normalizeSymbol sym cls = .ok nsym) :
    normalizeSymbol nsym cls = .ok nsym := by
  unfold normalizeSymbol at h ⊢
  by_cases hus : cls = "stock_us".data
  · rw [if_pos hus] at h ⊢
  rw [if_neg hus] at h ⊢
  by_cases hau : cls = "stock_au".data
  · rw [if_pos hau] at h ⊢
    by_cases hend : endsWith sym ".AX".data = true
    · rw [if_pos hend] at h
      cases h
      rw [if_pos hend]
    · rw [if_neg hend] at h
      cases h
      rw [if_pos (endsWith_append sym ".AX".data)]
  rw [if_neg hau] at h ⊢
  by_cases hcr : cls = "crypto".data
  · rw [if_pos hcr] at h ⊢
    by_cases hend : endsWith sym "-USD".data = true
    · rw [if_pos hend] at h
      cases h
      rw [if_pos hend]
    · rw [if_neg hend] at h
      cases h
      rw [if_pos (endsWith_append sym "-USD".data)]
  rw [if_neg hcr] at h
  cases h

/-- Evaluation of a sell on a symbol with no asset row: `NoSuchHolding`,
state rolled back. -/
theorem runRecord_sell_none {fetch : Str → Str → Option AssetInfo} {now : ℤ}
    {s : PState} {sym cls : Str} {q p : ℚ} {ts : ℤ} {nsym : Str}
    (hq : 0 < q) (hp : 0 < p) (hts : ts ≤ now)
    (hn : normalizeSymbol sym cls = .ok nsym)
    (hfind : findAsset s.assets nsym = none) :
    runRecord fetch now s sym cls "sell".data q p ts = (s, some .noSuchHolding) := by
  unfold runRecord addTransactionRaw
  rw [if_neg (not_le.mpr hq), if_neg (not_le.mpr hp), if_neg (not_lt.mpr hts), hn]
  dsimp only
  rw [hfind]
  dsimp only
  rw [if_pos rfl]

/-- Evaluation of a sell exceeding the held position:
`InsufficientHolding`, state rolled back. -/
theorem runRecord_sell_insufficient {fetch : Str → Str → Option AssetInfo} {now : ℤ}
    {s : PState} {sym cls : Str} {q p : ℚ} {ts : ℤ} {nsym : Str} {asset : Asset}
    (hq : 0 < q) (hp : 0 < p) (hts : ts ≤ now)
    (hn : normalizeSymbol sym cls = .ok nsym)
    (hfind : findAsset s.assets nsym = some asset)
    (hlt : asset.position < q) :
    runRecord fetch now s sym cls "sell".data q p ts
      = (s, some .insufficientHolding) := by
  unfold runRecord addTransactionRaw
  rw [if_neg (not_le.mpr hq), if_neg (not_le.mpr hp), if_neg (not_lt.mpr hts), hn]
  dsimp only
  rw [hfind]
  dsimp only
  rw [if_pos rfl, if_pos hlt]

/-- Evaluation of an accepted sell on an existing asset. -/
theorem addTransaction_sell_ok {fetch : Str → Str → Option AssetInfo} {now : ℤ}
    {s : PState} {sym cls : Str} {q p : ℚ} {ts : ℤ} {nsym : Str} {asset : Asset}
    (hq : 0 < q) (hp : 0 < p) (hts : ts ≤ now)
    (hn : normalizeSymbol sym cls = .ok nsym)
    (hfind : findAsset s.assets nsym = some asset)
    (hge : q ≤ asset.position)
    (hfresh : hasTimestamp s.transactions ts = false) :
    addTransaction fetch now s sym cls "sell".data q p ts
      = .ok (⟨updateAsset s.assets nsym { asset with position := asset.position - q },
             s.transactions ++ [⟨nsym, "sell".data, q, p, ts⟩]⟩,
           ⟨nsym, "sell".data, q, p, ts⟩,
           { asset with position := asset.position - q }) := by
  unfold addTransaction addTransactionRaw createTransaction
  rw [if_neg (not_le.mpr hq), if_neg (not_le.mpr hp), if_neg (not_lt.mpr hts), hn]
  dsimp only
  rw [hfind]
  dsimp only
  rw [if_pos rfl, if_neg (not_lt.mpr hge)]
  rw [hfresh]
  rw [if_neg Bool.false_ne_true]

/-- Evaluation of an accepted buy on an existing asset. -/
theorem addTransaction_buy_existing_ok {fetch : Str → Str → Option AssetInfo} {now : ℤ}
    {s : PState} {sym cls : Str} {q p : ℚ} {ts : ℤ} {nsym : Str} {asset : Asset}
    (hq : 0 < q) (hp : 0 < p) (hts : ts ≤ now)
    (hn : normalizeSymbol sym cls = .ok nsym)
    (hfind : findAsset s.assets nsym = some asset)
    (hfresh : hasTimestamp s.transactions ts = false) :
    addTransaction fetch now s sym cls "buy".data q p ts
      = .ok (⟨updateAsset s.assets nsym { asset with position := asset.position + q },
             s.transactions ++ [⟨nsym, "buy".data, q, p, ts⟩]⟩,
           ⟨nsym, "buy".data, q, p, ts⟩,
           { asset with position := asset.position + q }) := by
  unfold addTransaction addTransactionRaw createTransaction
  rw [if_neg (not_le.mpr hq), if_neg (not_le.mpr hp), if_neg (not_lt.mpr hts), hn]
  dsimp only
  rw [hfind]
  dsimp only
  rw [if_neg (fun h => ne_buy_sell h.symm), if_pos rfl]
  rw [hfresh]
  rw [if_neg Bool.false_ne_true]

/-- Evaluation of an accepted first buy of a new symbol: the asset is
created from the provider's info. -/
theorem addTransaction_buy_new_ok {fetch : Str → Str → Option AssetInfo} {now : ℤ}
    {s : PState} {sym cls : Str} {q p : ℚ} {ts : ℤ} {nsym : Str} {info : AssetInfo}
    (hq : 0 < q) (hp : 0 < p) (hts : ts ≤ now)
    (hn : normalizeSymbol sym cls = .ok nsym)
    (hfind : findAsset s.assets nsym = none)
    (hfetch : fetch nsym cls = some info)
    (hfresh : hasTimestamp s.transactions ts = false) :
    addTransaction fetch now s sym cls "buy".data q p ts
      = .ok (⟨s.assets ++ [⟨nsym, info.name, cls, q, some info.last_price, info.sector⟩],
             s.transactions ++ [⟨nsym, "buy".data, q, p, ts⟩]⟩,
           ⟨nsym, "buy".data, q, p, ts⟩,
           ⟨nsym, info.name, cls, q, some info.last_price, info.sector⟩) := by
  unfold addTransaction addTransactionRaw createTransaction
  rw [if_neg (not_le.mpr hq), if_neg (not_le.mpr hp), if_neg (not_lt.mpr hts), hn]
  dsimp only
  rw [hfind]
  dsimp only
  rw [if_neg (fun h => ne_buy_sell h.symm), if_pos rfl, hfetch]
  dsimp only
  rw [hfresh]
  rw [if_neg Bool.false_ne_true]

/-- Evaluation of a first buy whose provider lookup fails:
`AssetInfoUnavailable`, state rolled back. -/
theorem runRecord_buy_new_unavailable {fetch : Str → Str → Option AssetInfo} {now : ℤ}
    {s : PState} {sym cls : Str} {q p : ℚ} {ts : ℤ} {nsym : Str}
    (hq : 0 < q) (hp : 0 < p) (hts : ts ≤ now)
    (hn : normalizeSymbol sym cls = .ok nsym)
    (hfind : findAsset s.assets nsym = none)
    (hfetch : fetch nsym cls = none) :
    addTransaction fetch now s sym cls "buy".data q p ts
      = .error .assetInfoUnavailable := by
  unfold addTransaction addTransactionRaw
  rw [if_neg (not_le.mpr hq), if_neg (not_le.mpr hp), if_neg (not_lt.mpr hts), hn]
  dsimp only
  rw [hfind]
  dsimp only
  rw [if_neg (fun h => ne_buy_sell h.symm), if_pos rfl, hfetch]

/-- A success of the atomic operation is a success of the raw body. -/
theorem addTransaction_ok_raw {fetch : Str → Str → Option AssetInfo} {now : ℤ}
    {s : PState} {sym cls kind : Str} {q p : ℚ} {ts : ℤ}
    {r : PState × Transaction × Asset}
    (h : addTransaction fetch now s sym cls kind q p ts = .ok r) :
    addTransactionRaw fetch now s sym cls kind q p ts = .ok r := by
  unfold addTransaction at h
  cases hr : addTransactionRaw fetch now s sym cls kind q p ts with
  | ok r' =>
    rw [hr] at h
    dsimp only at h
    injection h with he
    rw [he]
  | error ep =>
    obtain ⟨e, sp⟩ := ep
    rw [hr] at h
    dsimp only at h
    cases h

/-- C3: `record_transaction` is atomic.  If the body raises any error —
even after a write has applied (the raw run reached partial state `sp`) —
the stored state after the call is exactly the pre-call state `s`, and the
operation surfaces the error: no asset creation or mutation and no
transaction row survives a failed call. -/
theorem record_transaction_atomic (fetch : Str → Str → Option AssetInfo)
    (now : ℤ) (s : PState) (sym cls kind : Str) (q p : ℚ) (ts : ℤ)
    (e : Err) (sp : PState)
    (h : addTransactionRaw fetch now s sym cls kind q p ts = .error (e, sp)) :
    runRecord fetch now s sym cls kind q p ts = (s, some e)
      ∧ addTransaction fetch now s sym cls kind q p ts = .error e := by
  constructor <;> simp [runRecord, addTransaction, h]

/-- Witness for C3: a buy whose transaction insert hits the duplicate
`(portfolio, timestamp)` constraint after the asset position was already
bumped from 6 to 7 in the raw body; the committed state is still `sW`. -/
theorem record_transaction_atomic_witness :
    runRecord fetchW 100 sW "AAPL".data "stock_us".data "buy".data 1 10 1
        = (sW, some .duplicateTimestamp)
      ∧ addTransaction fetchW 100 sW "AAPL".data "stock_us".data "buy".data 1 10 1
        = .error .duplicateTimestamp :=
  record_transaction_atomic fetchW 100 sW "AAPL".data "stock_us".data "buy".data 1 10 1
    .duplicateTimestamp
    ⟨[⟨"AAPL".data, "Test Asset".data, "stock_us".data, 7, some 150, "Tech".data⟩],
     [⟨"AAPL".data, "buy".data, 10, 100, 1⟩, ⟨"AAPL".data, "sell".data, 4, 120, 2⟩]⟩
    (of_decide_eq_true (by with_unfolding_all rfl))

/-- C4: the four validations run before any mutation, in the fixed order
quantity, price, timestamp, asset class; the first violated check
determines the error, and the stored state is unchanged. -/
theorem validation_order (fetch : Str → Str → Option AssetInfo)
    (now : ℤ) (s : PState) (sym cls kind : Str) (q p : ℚ) (ts : ℤ) :
    (q ≤ 0 → runRecord fetch now s sym cls kind q p ts = (s, some .invalidQuantity))
  ∧ (0 < q → p ≤ 0 →
      runRecord fetch now s sym cls kind q p ts = (s, some .invalidPrice))
  ∧ (0 < q → 0 < p → now < ts →
      runRecord fetch now s sym cls kind q p ts = (s, some .futureTimestamp))
  ∧ (0 < q → 0 < p → ts ≤ now →
      cls ≠ "stock_us".data → cls ≠ "stock_au".data → cls ≠ "crypto".data →
      runRecord fetch now s sym cls kind q p ts = (s, some .invalidAssetClass)) := by
  refine ⟨?_, ?_, ?_, ?_⟩
  · intro h
    simp [runRecord, addTransactionRaw, h]
  · intro h1 h2
    simp [runRecord, addTransactionRaw, not_le.mpr h1, h2]
  · intro h1 h2 h3
    simp [runRecord, addTransactionRaw, not_le.mpr h1, not_le.mpr h2, h3]
  · intro h1 h2 h3 h4 h5 h6
    simp [runRecord, addTransactionRaw, normalizeSymbol,
      not_le.mpr h1, not_le.mpr h2, not_lt.mpr h3, h4, h5, h6]

/-- Witness for C4: each of the four validation errors at a concrete
input, including one input violating several checks at once (quantity 0
with price 0: the quantity check wins). -/
theorem validation_order_witness :
    runRecord fetchW 100 initState "AAPL".data "stock_us".data "buy".data 0 0 1
        = (initState, some .invalidQuantity)
  ∧ runRecord fetchW 100 initState "AAPL".data "stock_us".data "buy".data 5 0 1
        = (initState, some .invalidPrice)
  ∧ runRecord fetchW 100 initState "AAPL".data "stock_us".data "buy".data 5 10 101
        = (initState, some .futureTimestamp)
  ∧ runRecord fetchW 100 initState "AAPL".data "bond".data "buy".data 5 10 1
        = (initState, some .invalidAssetClass) :=
  ⟨(validation_order fetchW 100 initState "AAPL".data "stock_us".data "buy".data 0 0 1).1
      (by norm_num),
   (validation_order fetchW 100 initState "AAPL".data "stock_us".data "buy".data 5 0 1).2.1
      (by norm_num) (by norm_num),
   (validation_order fetchW 100 initState "AAPL".data "stock_us".data "buy".data 5 10 101).2.2.1
      (by norm_num) (by norm_num) (by norm_num),
   (validation_order fetchW 100 initState "AAPL".data "bond".data "buy".data 5 10 1).2.2.2
      (by norm_num) (by norm_num) (by norm_num)
      (by decide) (by decide) (by decide)⟩

/-- C8: the normalizer leaves `stock_us` symbols unchanged, appends
`.AX` to a `stock_au` symbol exactly when it does not already end in
`.AX`, appends `-USD` to a `crypto` symbol exactly when it does not
already end in `-USD`, fails with the invalid-asset-class error on every
other class, and is idempotent (a successful output normalizes to
itself). -/
theorem normalize_spec (sym : Str) :
    normalizeSymbol sym "stock_us".data = .ok sym
  ∧ (endsWith sym ".AX".data = false →
      normalizeSymbol sym "stock_au".data = .ok (sym ++ ".AX".data))
  ∧ (endsWith sym ".AX".data = true →
      normalizeSymbol sym "stock_au".data = .ok sym)
  ∧ (endsWith sym "-USD".data = false →
      normalizeSymbol sym "crypto".data = .ok (sym ++ "-USD".data))
  ∧ (endsWith sym "-USD".data = true →
      normalizeSymbol sym "crypto".data = .ok sym)
  ∧ (∀ cls, cls ≠ "stock_us".data → cls ≠ "stock_au".data → cls ≠ "crypto".data →
      normalizeSymbol sym cls = .error .invalidAssetClass)
  ∧ (∀ cls nsym, normalizeSymbol sym cls = .ok nsym →
      normalizeSymbol nsym cls = .ok nsym) := by
  refine ⟨by simp [normalizeSymbol], ?_, ?_, ?_, ?_, ?_, ?_⟩
  · intro h
    simp [normalizeSymbol, h]
  · intro h
    simp [normalizeSymbol, h]
  · intro h
    simp [normalizeSymbol, h]
  · intro h
    simp [normalizeSymbol, h]
  · intro cls h1 h2 h3
    simp [normalizeSymbol, h1, h2, h3]
  · intro cls nsym h
    exact normalizeSymbol_idem h

/-- Witness for C8: `normalize("BHP", au_stock) = "BHP.AX"`, idempotence
on `"BHP.AX"`, unchanged US symbol, crypto suffixing, and the failure on
an unknown class, all at concrete inputs. -/
theorem normalize_spec_witness :
    normalizeSymbol "BHP".data "stock_au".data = .ok "BHP.AX".data
  ∧ normalizeSymbol "BHP.AX".data "stock_au".data = .ok "BHP.AX".data
  ∧ normalizeSymbol "AAPL".data "stock_us".data = .ok "AAPL".data
  ∧ normalizeSymbol "BTC".data "crypto".data = .ok "BTC-USD".data
  ∧ normalizeSymbol "BHP".data "bond".data = .error .invalidAssetClass := by
  refine ⟨?_, ?_, (normalize_spec "AAPL".data).1, ?_, ?_⟩
  · have h := (normalize_spec "BHP".data).2.1 (by decide)
    exact h
  · exact (normalize_spec "BHP".data).2.2.2.2.2.2 "stock_au".data "BHP.AX".data
      ((normalize_spec "BHP".data).2.1 (by decide))
  · exact (normalize_spec "BTC".data).2.2.2.1 (by decide)
  · exact (normalize_spec "BHP".data).2.2.2.2.2.1 "bond".data
      (by decide) (by decide) (by decide)

/-- C2: a sell on a symbol with no asset row fails with `NoSuchHolding`;
a sell exceeding the existing position fails with `InsufficientHolding`;
selling exactly the full position succeeds and leaves `position = 0`,
after which every sell of a positive quantity fails with
`InsufficientHolding`. -/
theorem sell_error_semantics (fetch : Str → Str → Option AssetInfo)
    (now : ℤ) (s : PState) (sym cls : Str) (q p : ℚ) (ts : ℤ) (nsym : Str)
    (hq : 0 < q) (hp : 0 < p) (hts : ts ≤ now)
    (hn : normalizeSymbol sym cls = .ok nsym) :
    (findAsset s.assets nsym = none →
        runRecord fetch now s sym cls "sell".data q p ts = (s, some .noSuchHolding))
  ∧ (∀ asset, findAsset s.assets nsym = some asset → asset.position < q →
        runRecord fetch now s sym cls "sell".data q p ts
          = (s, some .insufficientHolding))
  ∧ (∀ asset, findAsset s.assets nsym = some asset → asset.position = q →
        hasTimestamp s.transactions ts = false →
        ∃ s₁ tx,
          addTransaction fetch now s sym cls "sell".data q p ts
              = .ok (s₁, tx, { asset with position := 0 })
            ∧ ∀ q' p' ts', 0 < q' → 0 < p' → ts' ≤ now →
                runRecord fetch now s₁ sym cls "sell".data q' p' ts'
                  = (s₁, some .insufficientHolding)) := by
  refine ⟨?_, ?_, ?_⟩
  · intro hfind
    exact runRecord_sell_none hq hp hts hn hfind
  · intro asset hfind hlt
    exact runRecord_sell_insufficient hq hp hts hn hfind hlt
  · intro asset hfind hpos hfresh
    have hok := @addTransaction_sell_ok fetch now s sym cls q p ts nsym asset
      hq hp hts hn hfind (le_of_eq hpos.symm) hfresh
    have key : ({ asset with position := asset.position - q } : Asset)
        = { asset with position := 0 } := by
      rw [hpos, sub_self]
    rw [key] at hok
    refine ⟨_, _, hok, ?_⟩
    intro q' p' ts' hq' hp' hts'
    have hsym : ({ asset with position := (0 : ℚ) } : Asset).symbol = nsym :=
      (findAsset_mem hfind).2
    have hfind' : findAsset
        (updateAsset s.assets nsym { asset with position := 0 }) nsym
          = some { asset with position := 0 } :=
      findAsset_updateAsset hfind hsym
    exact runRecord_sell_insufficient hq' hp' hts' hn hfind' hq'

/-- Witness for C2: on the two-call history `sW` (AAPL position 6), a
sell of a never-held symbol, an oversell, a full-position sell reaching
position 0, and the subsequent failing sell, all at concrete inputs. -/
theorem sell_error_semantics_witness :
    runRecord fetchW 100 initState "AAPL".data "stock_us".data "sell".data 5 10 1
        = (initState, some .noSuchHolding)
  ∧ runRecord fetchW 100 sW "AAPL".data "stock_us".data "sell".data 7 10 3
        = (sW, some .insufficientHolding)
  ∧ (∃ s₁ tx, addTransaction fetchW 100 sW "AAPL".data "stock_us".data "sell".data 6 10 3
          = .ok (s₁, tx, { assetW with position := 0 })
        ∧ ∀ q' p' ts', 0 < q' → 0 < p' → ts' ≤ 100 →
            runRecord fetchW 100 s₁ "AAPL".data "stock_us".data "sell".data q' p' ts'
              = (s₁, some .insufficientHolding)) :=
  ⟨(sell_error_semantics fetchW 100 initState "AAPL".data "stock_us".data 5 10 1
      "AAPL".data (by norm_num) (by norm_num) (by norm_num) (by decide)).1
      (of_decide_eq_true (by with_unfolding_all rfl)),
   (sell_error_semantics fetchW 100 sW "AAPL".data "stock_us".data 7 10 3
      "AAPL".data (by norm_num) (by norm_num) (by norm_num) (by decide)).2.1
      assetW (of_decide_eq_true (by with_unfolding_all rfl))
      (of_decide_eq_true (by with_unfolding_all rfl)),
   (sell_error_semantics fetchW 100 sW "AAPL".data "stock_us".data 6 10 3
      "AAPL".data (by norm_num) (by norm_num) (by norm_num) (by decide)).2.2
      assetW (of_decide_eq_true (by with_unfolding_all rfl))
      (of_decide_eq_true (by with_unfolding_all rfl))
      (of_decide_eq_true (by with_unfolding_all rfl))⟩

/-- C5: an accepted buy on an existing asset increases its position by
exactly the bought quantity; an accepted first buy creates the asset with
`position = quantity` and `last_price` taken from the provider's quote —
for every execution price `p`, so the trade's own price never becomes the
new asset's `last_price`; and a first buy whose provider lookup fails
errors with `AssetInfoUnavailable`. -/
theorem buy_semantics (fetch : Str → Str → Option AssetInfo)
    (now : ℤ) (s : PState) (sym cls : Str) (q p : ℚ) (ts : ℤ) (nsym : Str)
    (hq : 0 < q) (hp : 0 < p) (hts : ts ≤ now)
    (hn : normalizeSymbol sym cls = .ok nsym)
    (hfresh : hasTimestamp s.transactions ts = false) :
    (∀ asset, findAsset s.assets nsym = some asset →
        ∃ s₁ tx, addTransaction fetch now s sym cls "buy".data q p ts
            = .ok (s₁, tx, { asset with position := asset.position + q }))
  ∧ (findAsset s.assets nsym = none →
      (∀ info, fetch nsym cls = some info →
          ∃ s₁ tx, addTransaction fetch now s sym cls "buy".data q p ts
              = .ok (s₁, tx,
                  ⟨nsym, info.name, cls, q, some info.last_price, info.sector⟩))
        ∧ (fetch nsym cls = none →
            addTransaction fetch now s sym cls "buy".data q p ts
              = .error .assetInfoUnavailable)) := by
  refine ⟨?_, ?_⟩
  · intro asset hfind
    exact ⟨_, _, @addTransaction_buy_existing_ok fetch now s sym cls q p ts nsym asset
      hq hp hts hn hfind hfresh⟩
  · intro hfind
    refine ⟨?_, ?_⟩
    · intro info hfetch
      exact ⟨_, _, addTransaction_buy_new_ok hq hp hts hn hfind hfetch hfresh⟩
    · intro hfetch
      exact runRecord_buy_new_unavailable hq hp hts hn hfind hfetch

/-- Witness for C5: buying 2 more AAPL on `sW` yields position 8; a first
buy of MSFT at execution price 999 creates the asset with the provider's
quote 150 as `last_price`; with the failing provider the same buy errors
with `AssetInfoUnavailable`. -/
theorem buy_semantics_witness :
    (∃ s₁ tx, addTransaction fetchW 100 sW "AAPL".data "stock_us".data "buy".data 2 999 3
        = .ok (s₁, tx, { assetW with position := assetW.position + 2 }))
  ∧ (∃ s₁ tx, addTransaction fetchW 100 initState "MSFT".data "stock_us".data "buy".data 5 999 1
        = .ok (s₁, tx,
            ⟨"MSFT".data, "Test Asset".data, "stock_us".data, 5, some 150, "Tech".data⟩))
  ∧ addTransaction fetchNone 100 initState "MSFT".data "stock_us".data "buy".data 5 999 1
      = .error .assetInfoUnavailable :=
  ⟨(buy_semantics fetchW 100 sW "AAPL".data "stock_us".data 2 999 3 "AAPL".data
      (by norm_num) (by norm_num) (by norm_num) (by decide)
      (of_decide_eq_true (by with_unfolding_all rfl))).1 assetW
      (of_decide_eq_true (by with_unfolding_all rfl)),
   ((buy_semantics fetchW 100 initState "MSFT".data "stock_us".data 5 999 1 "MSFT".data
      (by norm_num) (by norm_num) (by norm_num) (by decide) (by decide)).2
      (by decide)).1 ⟨"Test Asset".data, 150, "Tech".data⟩ (by decide),
   ((buy_semantics fetchNone 100 initState "MSFT".data "stock_us".data 5 999 1 "MSFT".data
      (by norm_num) (by norm_num) (by norm_num) (by decide) (by decide)).2
      (by decide)).2 (by decide)⟩

/-- C9: an accepted transaction against an existing asset changes only
its position (up by the quantity for a buy, down for a sell): symbol,
name, asset type, last price and sector are unchanged — in particular the
trade's execution price is never written into `last_price` — and every
other asset row is untouched. -/
theorem existing_asset_frame (fetch : Str → Str → Option AssetInfo)
    (now : ℤ) (s : PState) (sym cls kind : Str) (q p : ℚ) (ts : ℤ)
    (nsym : Str) (asset : Asset) (s₁ : PState) (tx : Transaction) (a : Asset)
    (hn : normalizeSymbol sym cls = .ok nsym)
    (hfind : findAsset s.assets nsym = some asset)
    (hok : addTransaction fetch now s sym cls kind q p ts = .ok (s₁, tx, a)) :
    a.symbol = asset.symbol ∧ a.name = asset.name
      ∧ a.asset_type = asset.asset_type ∧ a.last_price = asset.last_price
      ∧ a.sector = asset.sector
      ∧ (a.position = asset.position + q ∨ a.position = asset.position - q)
      ∧ s₁.assets = updateAsset s.assets nsym a
      ∧ ∀ b ∈ s.assets, b.symbol ≠ nsym → b ∈ s₁.assets := by
  have hraw := addTransaction_ok_raw hok
  obtain ⟨nsym', hnorm', hq, hp, hts, hdup, htx, htxs, hcase⟩ := raw_ok_cases hraw
  rw [hn] at hnorm'
  injection hnorm' with hns
  subst hns
  rcases hcase with ⟨asset', hfind', hkind, hqle, ha, hassets⟩
    | ⟨asset', hfind', hkind, ha, hassets⟩
    | ⟨info, hfind', hkind, hfetch, ha, hassets⟩
  · rw [hfind] at hfind'
    injection hfind' with he
    subst he
    subst ha
    refine ⟨rfl, rfl, rfl, rfl, rfl, Or.inr rfl, hassets, ?_⟩
    intro b hb hbs
    rw [hassets]
    exact untouched_mem_updateAsset hb hbs
  · rw [hfind] at hfind'
    injection hfind' with he
    subst he
    subst ha
    refine ⟨rfl, rfl, rfl, rfl, rfl, Or.inl rfl, hassets, ?_⟩
    intro b hb hbs
    rw [hassets]
    exact untouched_mem_updateAsset hb hbs
  · rw [hfind] at hfind'
    cases hfind'

set_option maxRecDepth 8000 in
/-- Witness for C9 at the accepted buy of 2 AAPL at execution price 999
on `sW`: only the position changed (6 to 8); `last_price` stayed 150. -/
theorem existing_asset_frame_witness :
    ({ assetW with position := 8 } : Asset).symbol = assetW.symbol
      ∧ ({ assetW with position := 8 } : Asset).name = assetW.name
      ∧ ({ assetW with position := 8 } : Asset).asset_type = assetW.asset_type
      ∧ ({ assetW with position := 8 } : Asset).last_price = assetW.last_price
      ∧ ({ assetW with position := 8 } : Asset).sector = assetW.sector
      ∧ (({ assetW with position := 8 } : Asset).position = assetW.position + 2
          ∨ ({ assetW with position := 8 } : Asset).position = assetW.position - 2)
      ∧ (⟨[{ assetW with position := 8 }],
            sW.transactions ++ [⟨"AAPL".data, "buy".data, 2, 999, 3⟩]⟩ : PState).assets
          = updateAsset sW.assets "AAPL".data { assetW with position := 8 }
      ∧ ∀ b ∈ sW.assets, b.symbol ≠ "AAPL".data →
          b ∈ (⟨[{ assetW with position := 8 }],
              sW.transactions ++ [⟨"AAPL".data, "buy".data, 2, 999, 3⟩]⟩ : PState).assets :=
  existing_asset_frame fetchW 100 sW "AAPL".data "stock_us".data "buy".data 2 999 3
    "AAPL".data assetW
    ⟨[{ assetW with position := 8 }],
      sW.transactions ++ [⟨"AAPL".data, "buy".data, 2, 999, 3⟩]⟩
    ⟨"AAPL".data, "buy".data, 2, 999, 3⟩ { assetW with position := 8 }
    (by decide) (of_decide_eq_true (by with_unfolding_all rfl))
    (of_decide_eq_true (by with_unfolding_all rfl))

/-- C10: every transaction row persisted by an accepted call carries the
normalized symbol — a fixed point of the normalizer for the call's asset
class — equal to the symbol of the asset created or mutated in the same
call, which is stored in the resulting state; the row is appended to the
transaction list. -/
theorem transaction_symbol_normalized (fetch : Str → Str → Option AssetInfo)
    (now : ℤ) (s : PState) (sym cls kind : Str) (q p : ℚ) (ts : ℤ)
    (s₁ : PState) (tx : Transaction) (a : Asset)
    (hok : addTransaction fetch now s sym cls kind q p ts = .ok (s₁, tx, a)) :
    tx.asset_symbol = a.symbol
      ∧ normalizeSymbol tx.asset_symbol cls = .ok tx.asset_symbol
      ∧ s₁.transactions = s.transactions ++ [tx]
      ∧ a ∈ s₁.assets := by
  have hraw := addTransaction_ok_raw hok
  obtain ⟨nsym, hnorm, hq, hp, hts, hdup, htx, htxs, hcase⟩ := raw_ok_cases hraw
  subst htx
  have hidem := normalizeSymbol_idem hnorm
  rcases hcase with ⟨asset, hfind, hkind, hqle, ha, hassets⟩
    | ⟨asset, hfind, hkind, ha, hassets⟩
    | ⟨info, hfind, hkind, hfetch, ha, hassets⟩
  · subst ha
    refine ⟨(findAsset_mem hfind).2.symm, hidem, htxs, ?_⟩
    rw [hassets]
    exact updated_mem_updateAsset (findAsset_mem hfind).1 (findAsset_mem hfind).2
  · subst ha
    refine ⟨(findAsset_mem hfind).2.symm, hidem, htxs, ?_⟩
    rw [hassets]
    exact updated_mem_updateAsset (findAsset_mem hfind).1 (findAsset_mem hfind).2
  · subst ha
    refine ⟨rfl, hidem, htxs, ?_⟩
    rw [hassets]
    exact List.mem_append.mpr (Or.inr (by simp))

/-- Witness for C10 at a first buy of BHP as an Australian stock: the
stored transaction and the created asset both carry `BHP.AX`, itself a
fixed point of the normalizer. -/
theorem transaction_symbol_normalized_witness :
    (⟨"BHP.AX".data, "buy".data, 5, 20, 1⟩ : Transaction).asset_symbol
        = (⟨"BHP.AX".data, "Test Asset".data, "stock_au".data, 5, some 150,
            "Tech".data⟩ : Asset).symbol
      ∧ normalizeSymbol (⟨"BHP.AX".data, "buy".data, 5, 20, 1⟩ : Transaction).asset_symbol
            "stock_au".data
          = .ok (⟨"BHP.AX".data, "buy".data, 5, 20, 1⟩ : Transaction).asset_symbol
      ∧ (⟨[⟨"BHP.AX".data, "Test Asset".data, "stock_au".data, 5, some 150, "Tech".data⟩],
            [⟨"BHP.AX".data, "buy".data, 5, 20, 1⟩]⟩ : PState).transactions
          = initState.transactions ++ [⟨"BHP.AX".data, "buy".data, 5, 20, 1⟩]
      ∧ (⟨"BHP.AX".data, "Test Asset".data, "stock_au".data, 5, some 150,
            "Tech".data⟩ : Asset)
          ∈ (⟨[⟨"BHP.AX".data, "Test Asset".data, "stock_au".data, 5, some 150,
              "Tech".data⟩],
            [⟨"BHP.AX".data, "buy".data, 5, 20, 1⟩]⟩ : PState).assets :=
  transaction_symbol_normalized fetchW 100 initState "BHP".data "stock_au".data
    "buy".data 5 20 1
    ⟨[⟨"BHP.AX".data, "Test Asset".data, "stock_au".data, 5, some 150, "Tech".data⟩],
      [⟨"BHP.AX".data, "buy".data, 5, 20, 1⟩]⟩
    ⟨"BHP.AX".data, "buy".data, 5, 20, 1⟩
    ⟨"BHP.AX".data, "Test Asset".data, "stock_au".data, 5, some 150, "Tech".data⟩
    (of_decide_eq_true (by with_unfolding_all rfl))

set_option maxRecDepth 8000 in
/-- C6: `total_cost` is the sum of quantity times price over stored buy
transactions with the asset's symbol minus the same sum over sells; it is
invariant under every permutation of the transaction history; and the
ledger round trip buy 10 at 100 then sell 10 at 150 on a previously
unheld symbol leaves position 0 and total cost -500. -/
theorem total_cost_props :
    (∀ (txs : List Transaction) (a : Asset), total_cost txs a
        = ((txsFor txs a.symbol "buy".data).map (fun t => t.quantity * t.price)).sum
          - ((txsFor txs a.symbol "sell".data).map (fun t => t.quantity * t.price)).sum)
  ∧ (∀ (txs txs' : List Transaction) (a : Asset), txs.Perm txs' →
        total_cost txs a = total_cost txs' a)
  ∧ (findAsset sRT.assets "MSFT".data = some assetRT
      ∧ assetRT.position = 0
      ∧ total_cost sRT.transactions assetRT = -500) := by
  refine ⟨?_, ?_, ?_⟩
  · intro txs a
    rfl
  · intro txs txs' a h
    unfold total_cost txsFor
    rw [List.Perm.sum_eq ((h.filter _).map _), List.Perm.sum_eq ((h.filter _).map _)]
  · refine ⟨of_decide_eq_true (by with_unfolding_all rfl), rfl, ?_⟩
    have h : decide (total_cost sRT.transactions assetRT = -500) = true := by
      with_unfolding_all rfl
    exact of_decide_eq_true h

/-- Witness for C6: the permutation part applied to a concrete two-element
history swapped. -/
theorem total_cost_props_witness :
    total_cost [⟨"AAPL".data, "buy".data, 10, 100, 1⟩,
                ⟨"AAPL".data, "sell".data, 4, 120, 2⟩] assetW
      = total_cost [⟨"AAPL".data, "sell".data, 4, 120, 2⟩,
                    ⟨"AAPL".data, "buy".data, 10, 100, 1⟩] assetW :=
  total_cost_props.2.1
    [⟨"AAPL".data, "buy".data, 10, 100, 1⟩, ⟨"AAPL".data, "sell".data, 4, 120, 2⟩]
    [⟨"AAPL".data, "sell".data, 4, 120, 2⟩, ⟨"AAPL".data, "buy".data, 10, 100, 1⟩]
    assetW
    (List.Perm.swap (⟨"AAPL".data, "sell".data, 4, 120, 2⟩ : Transaction)
      (⟨"AAPL".data, "buy".data, 10, 100, 1⟩ : Transaction) [])

/-- C7: the valuation metrics — market value is position times the known
last price and 0 when the price is unknown; average cost is total cost
over position for a positive position and 0 otherwise; profit and loss is
market value minus total cost; the portfolio aggregates are the sums of
market value and of total cost over the portfolio's assets. -/
theorem valuation_metrics (s : PState) (a : Asset) :
    (∀ pr, a.last_price = some pr → market_value a = a.position * pr)
  ∧ (a.last_price = none → market_value a = 0)
  ∧ (0 < a.position →
      average_cost s.transactions a = total_cost s.transactions a / a.position)
  ∧ (¬0 < a.position → average_cost s.transactions a = 0)
  ∧ profit_loss s.transactions a = market_value a - total_cost s.transactions a
  ∧ assets_value s = (s.assets.map market_value).sum
  ∧ assets_cost s = (s.assets.map (total_cost s.transactions)).sum := by
  refine ⟨?_, ?_, ?_, ?_, rfl, rfl, rfl⟩
  · intro pr hpr
    unfold market_value
    rw [hpr]
  · intro hpr
    unfold market_value
    rw [hpr]
  · intro hpos
    unfold average_cost
    rw [if_pos hpos]
  · intro hpos
    unfold average_cost
    rw [if_neg hpos]

/-- Witness for C7 on the AAPL asset of `sW` (position 6, last price 150,
cost basis 520): market value 900, average cost 520 over 6, profit 380. -/
theorem valuation_metrics_witness :
    market_value assetW = assetW.position * 150
      ∧ average_cost sW.transactions assetW
          = total_cost sW.transactions assetW / assetW.position
      ∧ profit_loss sW.transactions assetW
          = market_value assetW - total_cost sW.transactions assetW
      ∧ assets_value sW = (sW.assets.map market_value).sum
      ∧ assets_cost sW = (sW.assets.map (total_cost sW.transactions)).sum :=
  ⟨(valuation_metrics sW assetW).1 150 rfl,
   (valuation_metrics sW assetW).2.2.1 (by norm_num [assetW]),
   (valuation_metrics sW assetW).2.2.2.2.1,
   (valuation_metrics sW assetW).2.2.2.2.2.1,
   (valuation_metrics sW assetW).2.2.2.2.2.2⟩

end Finm
